import Mathlib

/-!
Verification development for the text-analysis core of `src/app.py`
(Geotech_Scraper).  The Python code works on the extracted document text with
regular expressions; we embed the text as `List Char` and translate each
regular expression into an explicit bounded scanning function that mirrors
CPython `re` semantics for the patterns that actually occur in the source:
leftmost search, non-overlapping `findall`, lazy bounded wildcards
(`[^.\n]{0,60}?`, `.{0,120}?`), ordered alternation with backtracking, greedy
`\d+(?:\.\d+)?` (maximal munch is equivalent to backtracking for these
patterns because a failing continuation always starts with a non-digit that
also fails after giving characters back), and word boundaries `\b`.
`\s` and `\w` are modelled by their ASCII meaning, and Python floats produced
by `float(...)` / `round(x, n)` are modelled by exact rationals with
round-half-to-even, which agrees with the source on every value reached in
the theorems below.
-/

namespace Geo

/-- Python `\w` (ASCII part): letters, digits, underscore. -/
def isWordChar (c : Char) : Bool := c.isAlphanum || c = '_'

/-- Python `\s` (ASCII part). -/
def isSpaceChar (c : Char) : Bool :=
  c = ' ' || c = '\t' || c = '\n' || c = '\r' || c = '\x0b' || c = '\x0c'

/-- The character class `[^.\n]`. -/
def notPN (c : Char) : Bool := !(c = '.' || c = '\n')

/-- The class `.` under `re.DOTALL`: any character. -/
def anyC (_ : Char) : Bool := true

/-- Python `text.lower()` (ASCII). -/
def lowerL (cs : List Char) : List Char := cs.map Char.toLower

/-- Python `text.upper()` (ASCII). -/
def upperL (cs : List Char) : List Char := cs.map Char.toUpper

/-- Match a literal case-insensitively at the head; return the remainder. -/
def matchLitCI : List Char → List Char → Option (List Char)
  | [], cs => some cs
  | _ :: _, [] => none
  | l :: ls, c :: cs => if c.toLower = l.toLower then matchLitCI ls cs else none

/-- Maximal run of whitespace. -/
def takeSpaces : List Char → List Char × List Char
  | [] => ([], [])
  | c :: cs =>
    if isSpaceChar c then
      let r := takeSpaces cs
      (c :: r.1, r.2)
    else ([], c :: cs)

/-- Pattern `\s+`. -/
def spaces1 (cs : List Char) : Option (List Char) :=
  let r := takeSpaces cs
  if r.1 = [] then none else some r.2

/-- Pattern `\s*`. -/
def spaces0 (cs : List Char) : List Char := (takeSpaces cs).2

/-- Maximal run of ASCII digits. -/
def takeDigits : List Char → List Char × List Char
  | [] => ([], [])
  | c :: cs =>
    if c.isDigit then
      let r := takeDigits cs
      (c :: r.1, r.2)
    else ([], c :: cs)

def digitsVal (ds : List Char) : Nat := ds.foldl (fun n c => 10 * n + (c.toNat - 48)) 0

/-- Pattern `(\d+(?:\.\d+)?)` followed by Python `float(...)`, as an exact rational
(`mkRat` keeps the definition kernel-computable; `d1.d2` is the rational
`(d1 * 10 ^ k + d2) / 10 ^ k` with `k` the fraction length). -/
def parseNum (cs : List Char) : Option (Rat × List Char) :=
  match takeDigits cs with
  | ([], _) => none
  | (ds, rest) =>
    match rest with
    | '.' :: rest2 =>
      match takeDigits rest2 with
      | ([], _) => some ((digitsVal ds : Rat), rest)
      | (fs, rest3) =>
        some (mkRat (digitsVal ds * 10 ^ fs.length + digitsVal fs) (10 ^ fs.length), rest3)
    | _ => some ((digitsVal ds : Rat), rest)

/-- A lazy bounded gap `p{0,bound}?` before continuation `f`: shortest gap
first, exactly like a lazy quantifier inside `re.search`. -/
def lazyGap (p : Char → Bool) (f : List Char → Option α) : Nat → List Char → Option α
  | bound, cs =>
    match f cs with
    | some a => some a
    | none =>
      match bound, cs with
      | b + 1, c :: rest => if p c then lazyGap p f b rest else none
      | _, _ => none

/-- Python `re.search`: try the matcher at every start position, leftmost first
(the empty suffix at the end of the string included). -/
def searchFirst (f : List Char → Option α) : List Char → Option α
  | [] => f []
  | c :: cs =>
    match f (c :: cs) with
    | some a => some a
    | none => searchFirst f cs

/-- Python `re.search` for a pattern that starts with `\b`: the matcher also
receives whether the previous character was a word character. -/
def searchFirstB (f : Bool → List Char → Option α) : Bool → List Char → Option α
  | pw, [] => f pw []
  | pw, c :: cs =>
    match f pw (c :: cs) with
    | some a => some a
    | none => searchFirstB f (isWordChar c) cs

/-- Python `re.findall` / `re.finditer`: non-overlapping matches scanning left to
right, resuming right after each match end.  `fuel` is an upper bound on the
number of scanning steps (the callers pass `length + 1`; every matcher used
with this consumes at least one character). -/
def scanAllP (f : List Char → Option (α × List Char)) : Nat → List Char → List α
  | 0, _ => []
  | _ + 1, [] =>
    match f [] with
    | some (a, _) => [a]
    | none => []
  | fuel + 1, c :: cs =>
    match f (c :: cs) with
    | some (a, rest) => a :: scanAllP f fuel rest
    | none => scanAllP f fuel cs

/-! ## Groundwater detector (`find_groundwater`, src/app.py lines 61-85) -/

/-- The alternation `(groundwater|water table)` of rules 2 and 3. -/
def gwAnchor (cs : List Char) : Option (List Char) :=
  match matchLitCI "groundwater".data cs with
  | some r => some r
  | none => matchLitCI "water table".data cs

/-- One position of `groundwater (?:was )?not encountered`. -/
def gwNotEncAt (cs : List Char) : Option Unit :=
  (matchLitCI "groundwater ".data cs).bind fun r1 =>
    match (matchLitCI "was ".data r1).bind (matchLitCI "not encountered".data) with
    | some _ => some ()
    | none => (matchLitCI "not encountered".data r1).map fun _ => ()

def gwNotEnc (t : List Char) : Bool := (searchFirst gwNotEncAt t).isSome

/-- The alternation `(<|less than|~|at|approx)` of rule 2, with full
backtracking into the continuation `k`. -/
def tryAlts (k : List Char → Option α) : List (List Char) → List Char → Option α
  | [], _ => none
  | a :: rest, cs =>
    match (matchLitCI a cs).bind k with
    | some x => some x
    | none => tryAlts k rest cs

def gwQualAlts : List (List Char) :=
  ["<".data, "less than".data, "~".data, "at".data, "approx".data]

/-- One position of
`(groundwater|water table)[^.\n]{0,60}?(<|less than|~|at|approx)[^.\n]{0,10}?5\s*ft`. -/
def gwShallowAt (cs : List Char) : Option Unit :=
  (gwAnchor cs).bind fun r1 =>
  lazyGap notPN (fun r2 =>
    tryAlts (fun r3 =>
      lazyGap notPN (fun r4 =>
        (matchLitCI "5".data r4).bind fun r5 =>
        (matchLitCI "ft".data (spaces0 r5)).map fun _ => ()) 10 r3) gwQualAlts r2) 60 r1

def gwShallow (t : List Char) : Bool := (searchFirst gwShallowAt t).isSome

/-- One position of `(groundwater|water table)[^.\n]{0,60}?(\d+(?:\.\d+)?)\s*ft`;
returns the parsed depth of group 2. -/
def gwDepthAt (cs : List Char) : Option Rat :=
  (gwAnchor cs).bind fun r1 =>
  lazyGap notPN (fun r2 =>
    (parseNum r2).bind fun dr =>
    (matchLitCI "ft".data (spaces0 dr.2)).map fun _ => dr.1) 60 r1

def gwDepth (t : List Char) : Option Rat := searchFirst gwDepthAt t

/-- The alternation `(water table|groundwater)` of rule 4. -/
def gwAnchor2 (cs : List Char) : Option (List Char) :=
  match matchLitCI "water table".data cs with
  | some r => some r
  | none => matchLitCI "groundwater".data cs

/-- The alternation `(exceeds|>\s*|greater than)` of rule 4. -/
def gwExcQuals (cs : List Char) : Option (List Char) :=
  match matchLitCI "exceeds".data cs with
  | some r => some r
  | none =>
    match (matchLitCI ">".data cs).map spaces0 with
    | some r => some r
    | none => matchLitCI "greater than".data cs

/-- One position of
`(water table|groundwater)[^.\n]{0,60}?(exceeds|>\s*|greater than)\s*6(\.5)?\s*ft`. -/
def gwExceedsAt (cs : List Char) : Option Unit :=
  (gwAnchor2 cs).bind fun r1 =>
  lazyGap notPN (fun r2 =>
    (gwExcQuals r2).bind fun r3 =>
    (matchLitCI "6".data (spaces0 r3)).bind fun r5 =>
    (match (matchLitCI ".5".data r5).bind (fun r6 => matchLitCI "ft".data (spaces0 r6)) with
     | some u => some u
     | none => matchLitCI "ft".data (spaces0 r5)) |>.map fun _ => ()) 60 r1

def gwExceeds (t : List Char) : Bool := (searchFirst gwExceedsAt t).isSome

/-- Function `find_groundwater` (src/app.py lines 61-85): ordered rule cascade over the
lower-cased text, first match wins; the `float(...)` conversion of rule 3
cannot fail because the regex only captures digit strings, so the
`try/except` of the source is vacuous here. -/
def find_groundwater (text : List Char) : String :=
  let t := lowerL text
  if gwNotEnc t then "No"
  else if gwShallow t then "Yes"
  else
    match gwDepth t with
    | some d => if d < 5 then "Yes" else "No"
    | none => if gwExceeds t then "No" else "No"

/-! ## Rounding (Python `round(x, n)` on the rationals reached here) -/

/-- Round half to even of the fraction `a / b` (`b` nonzero), the Python rounding
mode, computed on the integer numerator and denominator so that it reduces
in the kernel: with `f = ⌊a / b⌋` the fractional part is
`(a - f * b) / b`, and it is compared with `1 / 2` by comparing
`2 * (a - f * b)` with `b`. -/
def roundHalfEvenInt (a : Int) (b : Nat) : Int :=
  let f := Int.fdiv a b
  let r2 := 2 * (a - f * b)
  if r2 < b then f
  else if (b : Int) < r2 then f + 1
  else if f % 2 = 0 then f else f + 1

/-- Python `round(x, 2)`: round half to even of `q * 100`, divided by `100`. -/
def round2 (q : Rat) : Rat := Rat.divInt (roundHalfEvenInt (q.num * 100) q.den) 100

/-- Python `round(x, 1)`: round half to even of `q * 10`, divided by `10`. -/
def round1 (q : Rat) : Rat := Rat.divInt (roundHalfEvenInt (q.num * 10) q.den) 10

/-! ## USCS frequency analyzer (`extract_uscs_frequencies`, src/app.py 91-127) -/

def USCS_NAMES : List (String × String) :=
  [("GW", "Well-graded gravel"), ("GP", "Poorly graded gravel"),
   ("GM", "Silty gravel"), ("GC", "Clayey gravel"),
   ("SW", "Well-graded sand"), ("SP", "Poorly graded sand"),
   ("SM", "Silty sand"), ("SC", "Clayey sand"),
   ("ML", "Low-plasticity silt"), ("CL", "Low-plasticity clay"),
   ("MH", "High-plasticity silt"), ("CH", "High-plasticity clay"),
   ("OL", "Organic silt/clay"), ("OH", "Organic clay"),
   ("PT", "Peat (organic)")]

def assocLookup (l : List (String × String)) (k : String) : Option String :=
  match l with
  | [] => none
  | p :: rest => if p.1 = k then some p.2 else assocLookup rest k

/-- Python `code in USCS_NAMES`. -/
def isKnownCode (c : String) : Bool := (assocLookup USCS_NAMES c).isSome

/-- Python `USCS_NAMES.get(code, "")`. -/
def nameOf (c : String) : String := (assocLookup USCS_NAMES c).getD ""

/-- The alternatives of `USCS_PATTERN`, in source order (`SC-SM` first). -/
def uscsAlts : List String :=
  ["SC-SM", "GW", "GP", "GM", "GC", "SW", "SP", "SM", "SC", "ML", "CL", "MH", "CH", "OL", "OH", "PT"]

/-- The trailing `\b` of `USCS_PATTERN`: every alternative ends in a word
character, so the boundary holds iff the next character is not one. -/
def uscsBoundaryOk : List Char → Bool
  | [] => true
  | c :: _ => !isWordChar c

/-- Ordered alternation of `USCS_PATTERN` with backtracking past alternatives
whose trailing boundary fails. -/
def uscsTryAlt : List String → List Char → Option (String × List Char)
  | [], _ => none
  | a :: rest, cs =>
    match matchLitCI a.data cs with
    | some r => if uscsBoundaryOk r then some (a, r) else uscsTryAlt rest cs
    | none => uscsTryAlt rest cs

/-- One position of `USCS_PATTERN`; the leading `\b` needs the previous
character to not be a word character (every alternative starts with one). -/
def uscsMatchAt (pw : Bool) (cs : List Char) : Option (String × List Char) :=
  if pw then none else uscsTryAlt uscsAlts cs

/-- Python `re.findall(USCS_PATTERN, T)`: after a match the previous character is a
word character (codes end in letters). -/
def uscsScanAll : Nat → Bool → List Char → List String
  | 0, _, _ => []
  | _ + 1, _, [] => []
  | fuel + 1, pw, c :: cs =>
    match uscsMatchAt pw (c :: cs) with
    | some (code, rest) => code :: uscsScanAll fuel true rest
    | none => uscsScanAll fuel (isWordChar c) cs

def uscsFindAll (T : List Char) : List String := uscsScanAll (T.length + 1) false T

/-- Python `code.split("-")`. -/
def splitHyph : List Char → List (List Char)
  | [] => [[]]
  | c :: rest =>
    if c = '-' then [] :: splitHyph rest
    else
      match splitHyph rest with
      | [] => [[c]]
      | g :: gs => (c :: g) :: gs

def splitCode (c : String) : List String := (splitHyph c.data).map fun g => String.mk g

/-- The expansion loop of `extract_uscs_frequencies` (src/app.py 107-112). -/
def expandCodes : List String → Bool → List String
  | [], _ => []
  | c :: rest, collapse =>
    (if collapse && c.data.contains '-' then (splitCode c).filter isKnownCode else [c])
      ++ expandCodes rest collapse

/-- The distinct elements of a list in first-occurrence order (the key order
of a Python `Counter` built from the list). -/
def firstKeys : List String → List String
  | [] => []
  | c :: rest => c :: (firstKeys rest).filter (fun k => k != c)

/-- Stable insertion into a list sorted by descending count: an element is
placed after every earlier element of count at least its own, which is the
tie-breaking of `Counter.most_common` (a stable sort on descending count). -/
def insertDesc (x : String × Nat) : List (String × Nat) → List (String × Nat)
  | [] => [x]
  | y :: ys => if y.2 ≤ x.2 then x :: y :: ys else y :: insertDesc x ys

def sortDesc : List (String × Nat) → List (String × Nat)
  | [] => []
  | x :: xs => insertDesc x (sortDesc xs)

/-- Python `Counter(l).most_common()`. -/
def mostCommon (l : List String) : List (String × Nat) :=
  sortDesc ((firstKeys l).map fun k => (k, l.count k))

/-- One row of the frequency table (one row of the result DataFrame). -/
structure USCSRow where
  code : String
  name : String
  count : Nat
  percent : Rat
deriving DecidableEq

/-- The filtered expanded code list whose `Counter` is taken
(src/app.py line 114). -/
def uscsFiltered (text : List Char) (collapse : Bool) : List String :=
  (expandCodes (uscsFindAll (upperL text)) collapse).filter isKnownCode

/-- Source line `total = sum(counts.values())`. -/
def uscsTotal (text : List Char) (collapse : Bool) : Nat := (uscsFiltered text collapse).length

/-- Function `extract_uscs_frequencies` (src/app.py 103-127); the empty list is the
empty DataFrame. -/
def extract_uscs_frequencies (text : List Char) (collapse_compounds : Bool) : List USCSRow :=
  let filtered := uscsFiltered text collapse_compounds
  let total := filtered.length
  if total = 0 then []
  else
    (mostCommon filtered).map fun p =>
      { code := p.1, name := nameOf p.1, count := p.2,
        percent := round2 (Rat.divInt (100 * p.2) total) }

/-! ## Drainage classifier (`drainage_from_uscs_percentages`, src/app.py 129-172) -/

def BUCKET : List (String × String) :=
  [("GW", "excellent"), ("SW", "excellent"),
   ("GP", "good"), ("SP", "good"),
   ("GM", "moderate"), ("SM", "moderate"),
   ("GC", "poor"), ("SC", "poor"), ("ML", "poor"), ("CL", "poor"),
   ("MH", "very_poor"), ("CH", "very_poor"),
   ("OL", "unstable"), ("OH", "unstable"), ("PT", "unstable")]

/-- Python `BUCKET.get(code)`. -/
def bucketOf (code : String) : Option String := assocLookup BUCKET code

/-- Kernel-computable rational addition (`Rat.add` of Batteries is marked
irreducible); `qadd_eq` below identifies it with `+`. -/
def qadd (a b : Rat) : Rat := mkRat (a.num * b.den + b.num * a.den) (a.den * b.den)

theorem qadd_eq (a b : Rat) : qadd a b = a + b := (Rat.add_def' a b).symm

/-- The per-bucket accumulation of the `totals` dict (src/app.py 146-152):
the loop adds the percent of each row to its bucket, so the total of a bucket is the
sum of the percents of the rows landing in it. -/
def bucketTotal (b : String) : List USCSRow → Rat
  | [] => 0
  | r :: rs => qadd (if bucketOf r.code = some b then r.percent else 0) (bucketTotal b rs)

/-- The headline label of `drainage_from_uscs_percentages` (src/app.py
154-165), the `overall` variable.  The source returns this label with a
formatted per-bucket percentage breakdown appended; the claims only concern
the label so the string formatting of the breakdown is not modelled.  When
the table is empty the source dispatches to `assess_drainage` instead and
this label is not used. -/
def drainage_overall_label (rows : List USCSRow) : String :=
  let bad := qadd (qadd (bucketTotal "poor" rows) (bucketTotal "very_poor" rows)) (bucketTotal "unstable" rows)
  let ok := qadd (bucketTotal "excellent" rows) (bucketTotal "good" rows)
  if 60 ≤ bad then "Overall NOT well-draining"
  else if 40 ≤ bad then "Mostly not well-draining"
  else if 50 ≤ ok ∧ bad < 30 then "Overall well-draining tendency"
  else "Mixed drainage"

/-! ## Boring section segmenter (`iter_boring_sections`, src/app.py 178-189) -/

/-- Matcher for a literal of the pattern followed by `\s+`. -/
def litSp (lit : String) (cs : List Char) : Option (List Char) :=
  (matchLitCI lit.data cs).bind spaces1

/-- Pattern `\d{3}`. -/
def digits3 (cs : List Char) : Option (List Char × List Char) :=
  match cs with
  | d1 :: d2 :: d3 :: rest =>
    if d1.isDigit && d2.isDigit && d3.isDigit then some ([d1, d2, d3], rest) else none
  | _ => none

/-- Pattern `GEO-\d{3}`, with the identifier normalised to uppercase (the digits are
case-free and the prefix is reconstructed in uppercase, which is what
`m.group(1).upper()` yields). -/
def geoId (cs : List Char) : Option (String × List Char) :=
  (matchLitCI "geo-".data cs).bind fun r =>
  (digits3 r).map fun p => ("GEO-" ++ String.mk p.1, p.2)

/-- Pattern `LOG\s+OF\s+BORING\s+(GEO-\d{3})`. -/
def boringHeaderAt (cs : List Char) : Option (String × List Char) :=
  (litSp "log" cs).bind fun r1 =>
  (litSp "of" r1).bind fun r2 =>
  (litSp "boring" r2).bind fun r3 =>
  geoId r3

/-- Pattern `CPT\s+(?:SOUNDING|LOG|SOUNDING\s+ID|RESULTS)` as a lookahead test. -/
def cptWordAlt (cs : List Char) : Bool :=
  match litSp "cpt" cs with
  | none => false
  | some r =>
    (matchLitCI "sounding".data r).isSome || (matchLitCI "log".data r).isSome ||
    ((matchLitCI "sounding".data r).bind fun r2 =>
      (spaces1 r2).bind fun r3 => matchLitCI "id".data r3).isSome ||
    (matchLitCI "results".data r).isSome

/-- The lookahead terminating the lazy body of a boring section:
`(?=LOG\s+OF\s+BORING\s+GEO-\d{3}|LOG\s+OF\s+CPT|CPT\s+(?:SOUNDING|LOG|SOUNDING\s+ID|RESULTS)|Appendix|$)`. -/
def boringBoundary (cs : List Char) : Bool :=
  match cs with
  | [] => true
  | _ =>
    (boringHeaderAt cs).isSome ||
    ((litSp "log" cs).bind fun r => (litSp "of" r).bind fun r2 =>
      matchLitCI "cpt".data r2).isSome ||
    cptWordAlt cs ||
    (matchLitCI "appendix".data cs).isSome

/-- The lazy `(.*?)` body: everything up to the first position where the
lookahead holds (the end of the string included). -/
def takeBody : List Char → List Char × List Char
  | [] => ([], [])
  | c :: cs =>
    if boringBoundary (c :: cs) then ([], c :: cs)
    else
      let r := takeBody cs
      (c :: r.1, r.2)

def boringSectionAt (cs : List Char) : Option ((String × List Char) × List Char) :=
  (boringHeaderAt cs).map fun p =>
    let b := takeBody p.2
    ((p.1, b.1), b.2)

/-- Function `iter_boring_sections` (src/app.py 178-189): every `finditer` match as a
pair of uppercased boring id and captured section body. -/
def iter_boring_sections (text : List Char) : List (String × List Char) :=
  scanAllP boringSectionAt (text.length + 1) text

/-! ## Refusal counting (src/app.py 213-234) -/

/-- Boundary `\b` after `feet`/`ft`: the next character is not a word character. -/
def wordBoundaryAfter : List Char → Bool
  | [] => true
  | c :: _ => !isWordChar c

/-- Pattern `(?:feet|ft)\b`, alternatives in source order, backtracking past an
alternative whose trailing boundary fails. -/
def unitFtB (cs : List Char) : Option (List Char) :=
  match matchLitCI "feet".data cs with
  | some r =>
    if wordBoundaryAfter r then some r
    else
      match matchLitCI "ft".data cs with
      | some r2 => if wordBoundaryAfter r2 then some r2 else none
      | none => none
  | none =>
    match matchLitCI "ft".data cs with
    | some r2 => if wordBoundaryAfter r2 then some r2 else none
    | none => none

/-- One position of `REFUSAL_NUM_PAT`
(`\brefusal[^.\n]{0,160}?(\d+(?:\.\d+)?)\s*(?:feet|ft)\b`); `pw` says whether
the previous character is a word character (the leading `\b`). -/
def refusalAt (pw : Bool) (cs : List Char) : Option Rat :=
  if pw then none
  else
    (matchLitCI "refusal".data cs).bind fun r1 =>
    lazyGap notPN (fun r2 =>
      (parseNum r2).bind fun dr =>
      (unitFtB (spaces0 dr.2)).map fun _ => dr.1) 160 r1

/-- Search `REFUSAL_NUM_PAT.search(sec)`: the depth of the first match. -/
def refusalSearch (body : List Char) : Option Rat := searchFirstB refusalAt false body

/-- The aggregate of `_count_shallow_refusals`. -/
structure RefusalSummary where
  total : Nat
  shallow : Nat
  pct : Rat
  ids_with_depth : List (String × Rat)
deriving DecidableEq

/-- Python `ids_with_depth[sid] = depth`: insertion-ordered dict update. -/
def updMap : List (String × Rat) → String → Rat → List (String × Rat)
  | [], k, v => [(k, v)]
  | p :: rest, k, v => if p.1 = k then (k, v) :: rest else p :: updMap rest k v

/-- The loop of `_count_shallow_refusals` (src/app.py 222-232), threading
`(total, shallow, ids_with_depth)`. -/
def tallyGo (th : Rat) : List (String × List Char) → Nat × Nat × List (String × Rat) →
    Nat × Nat × List (String × Rat)
  | [], acc => acc
  | s :: rest, (total, shallow, m) =>
    match refusalSearch s.2 with
    | some d =>
      tallyGo th rest (total + 1, (if d < th then shallow + 1 else shallow), updMap m s.1 d)
    | none => tallyGo th rest (total + 1, shallow, m)

/-- Function `_count_shallow_refusals` (src/app.py 218-234).  The `float(...)` of the
source cannot raise on a regex-captured digit string, so the `except` branch
is vacuous. -/
def count_shallow_refusals (secs : List (String × List Char)) (threshold_ft : Rat) :
    RefusalSummary :=
  let r := tallyGo threshold_ft secs (0, 0, [])
  { total := r.1, shallow := r.2.1,
    pct := if r.1 = 0 then 0 else round1 (Rat.divInt (100 * r.2.1) r.1),
    ids_with_depth := r.2.2 }

/-! ## Boring fallback (`_boring_fallback_counts`, src/app.py 275-313) -/

/-- A greedy optional literal (`s?`, `e?`, `(?:was )?`) with backtracking
into the continuation. -/
def optLit (lit : String) (k : List Char → Option α) (cs : List Char) : Option α :=
  match (matchLitCI lit.data cs).bind k with
  | some a => some a
  | none => k cs

/-- One position of `Soil\s+borings?\s+were\s+completed\s+at\s+(\d+)\s+locations`,
returning the parsed count and the remainder after the match. -/
def boringNarrAt (cs : List Char) : Option (Nat × List Char) :=
  (litSp "soil" cs).bind fun r1 =>
  (matchLitCI "boring".data r1).bind fun r2 =>
  optLit "s" (fun r3 =>
    (spaces1 r3).bind fun r4 =>
    (litSp "were" r4).bind fun r5 =>
    (litSp "completed" r5).bind fun r6 =>
    (litSp "at" r6).bind fun r7 =>
    match takeDigits r7 with
    | ([], _) => none
    | (ds, r8) =>
      (spaces1 r8).bind fun r9 =>
      (matchLitCI "locations".data r9).map fun r10 => (digitsVal ds, r10)) r2

/-- One position of `A\s+total\s+of\s+(\d+)\s+soil\s+borings?\s+were?\s+completed`. -/
def supplAt (cs : List Char) : Option Nat :=
  (litSp "a" cs).bind fun r1 =>
  (litSp "total" r1).bind fun r2 =>
  (litSp "of" r2).bind fun r3 =>
  match takeDigits r3 with
  | ([], _) => none
  | (ds, r4) =>
    (spaces1 r4).bind fun r5 =>
    (litSp "soil" r5).bind fun r6 =>
    (matchLitCI "boring".data r6).bind fun r7 =>
    optLit "s" (fun r8 =>
      (spaces1 r8).bind fun r9 =>
      (matchLitCI "wer".data r9).bind fun r10 =>
      optLit "e" (fun r11 =>
        (spaces1 r11).bind fun r12 =>
        (matchLitCI "completed".data r12).map fun _ => digitsVal ds) r10) r7

/-- Pattern `(?:feet|ft)` (no trailing boundary), alternatives in source order. -/
def unitFt (cs : List Char) : Option (List Char) :=
  match matchLitCI "feet".data cs with
  | some r => some r
  | none => matchLitCI "ft".data cs

/-- One position of
`(GEO-\d{3}).{0,120}?refusal[^.\n]{0,120}?(\d+(?:\.\d+)?)\s*(?:feet|ft)`
(`re.DOTALL`, src/app.py 297). -/
def geoRefusalAt (cs : List Char) : Option ((String × Rat) × List Char) :=
  (geoId cs).bind fun p =>
  lazyGap anyC (fun r2 =>
    (matchLitCI "refusal".data r2).bind fun r3 =>
    lazyGap notPN (fun r4 =>
      (parseNum r4).bind fun dr =>
      (unitFt (spaces0 dr.2)).map fun rest => ((p.1, dr.1), rest)) 120 r3) 120 p.2

/-- Function `_boring_fallback_counts` (src/app.py 275-307): narrative totals summed
over all matches plus the one-time supplemental phrase, a document-wide scan
of id/refusal-depth co-occurrences, and a percent that divides by
`max(total, 1)` and is forced to `0.0` when the total is `0`. -/
def boring_fallback_counts (text : List Char) (threshold_ft : Rat) : RefusalSummary :=
  let narr := scanAllP boringNarrAt (text.length + 1) text
  let suppl := match searchFirst supplAt text with | some n => n | none => 0
  let total := narr.foldl (fun a n => a + n) 0 + suppl
  let pairs := scanAllP geoRefusalAt (text.length + 1) text
  let shallow := (pairs.filter fun p => decide (p.2 < threshold_ft)).length
  let m := pairs.foldl (fun acc p => updMap acc p.1 p.2) []
  { total := total, shallow := shallow,
    pct := if total = 0 then 0 else round1 (Rat.divInt (100 * shallow) total),
    ids_with_depth := m }

/-- Function `count_boring_refusals_under_8ft` (src/app.py 309-313). -/
def count_boring_refusals_under_8ft (text : List Char) (threshold_ft : Rat) : RefusalSummary :=
  let s := count_shallow_refusals (iter_boring_sections text) threshold_ft
  if s.total = 0 then boring_fallback_counts text threshold_ft else s

/-! ## CPT fallback (`_cpt_fallback_counts`, src/app.py 238-264) -/

/-- Pattern `(?:were\s+)?`, greedy with backtracking. -/
def optWereSp (k : List Char → Option α) (cs : List Char) : Option α :=
  match (litSp "were" cs).bind k with
  | some a => some a
  | none => k cs

/-- One position of
`CPT\s+soundings?\s+(?:were\s+)?performed\s+at\s+(\d+)\s+locations`. -/
def cptTotalAt (cs : List Char) : Option Nat :=
  (litSp "cpt" cs).bind fun r1 =>
  (matchLitCI "sounding".data r1).bind fun r2 =>
  optLit "s" (fun r3 =>
    (spaces1 r3).bind fun r4 =>
    optWereSp (fun r5 =>
      (litSp "performed" r5).bind fun r6 =>
      (litSp "at" r6).bind fun r7 =>
      match takeDigits r7 with
      | ([], _) => none
      | (ds, r8) =>
        (spaces1 r8).bind fun r9 =>
        (matchLitCI "locations".data r9).map fun _ => digitsVal ds) r4) r2

/-- The terminator `(?:Table\s*3|3\.\d|Appendix|$)` of the Table 2 block. -/
def cptTerm (cs : List Char) : Bool :=
  match cs with
  | [] => true
  | _ =>
    ((matchLitCI "table".data cs).bind fun r => matchLitCI "3".data (spaces0 r)).isSome ||
    (match matchLitCI "3.".data cs with
     | some (c :: _) => c.isDigit
     | _ => false) ||
    (matchLitCI "appendix".data cs).isSome

/-- The lazy `.*?` before the terminator. -/
def takeUntilTerm : List Char → List Char × List Char
  | [] => ([], [])
  | c :: cs =>
    if cptTerm (c :: cs) then ([], c :: cs)
    else
      let r := takeUntilTerm cs
      (c :: r.1, r.2)

/-- One position of the Table 2 pattern
`(Table\s*2[^.\n]*?CPT\s+Sounding\s+Shallow\s+Refusal\s+Depths.*?)(?:Table\s*3|3\.\d|Appendix|$)`,
returning the captured group 1 (the block). -/
def cptBlockAt (cs : List Char) : Option (List Char) :=
  (matchLitCI "table".data cs).bind fun r1 =>
  (matchLitCI "2".data (spaces0 r1)).bind fun r2 =>
  (lazyGap notPN (fun r3 =>
    (litSp "cpt" r3).bind fun r4 =>
    (litSp "sounding" r4).bind fun r5 =>
    (litSp "shallow" r5).bind fun r6 =>
    (litSp "refusal" r6).bind fun r7 =>
    matchLitCI "depths".data r7) r2.length r2).map fun r8 =>
      let t := takeUntilTerm r8
      cs.take (cs.length - t.2.length)

/-- One position of `(GEO-\d{3}).{0,80}?(\d+(?:\.\d+)?)\s*(?:feet|ft)?`
inside the block (the unit is optional and `\s*` is greedy, so the match end
is after the unit when present, otherwise after the spaces). -/
def cptPairAt (cs : List Char) : Option ((String × Rat) × List Char) :=
  (geoId cs).bind fun p =>
  lazyGap anyC (fun r2 =>
    (parseNum r2).map fun dr =>
      let rs := spaces0 dr.2
      ((p.1, dr.1), match unitFt rs with | some ru => ru | none => rs)) 80 p.2

/-- Function `_cpt_fallback_counts` (src/app.py 238-264). -/
def cpt_fallback_counts (text : List Char) (threshold_ft : Rat) : RefusalSummary :=
  let total := match searchFirst cptTotalAt text with | some n => n | none => 0
  let pairs := match searchFirst cptBlockAt text with
    | some block => scanAllP cptPairAt (block.length + 1) block
    | none => []
  let shallow := (pairs.filter fun p => decide (p.2 < threshold_ft)).length
  let m := pairs.foldl (fun acc p => updMap acc p.1 p.2) []
  { total := total, shallow := shallow,
    pct := if total = 0 then 0 else round1 (Rat.divInt (100 * shallow) total),
    ids_with_depth := m }

/-! ## Helper lemmas about `firstKeys`, counting and the stable sort -/

theorem mem_firstKeys_iff (k : String) (l : List String) : k ∈ firstKeys l ↔ k ∈ l := by
  induction l with
  | nil => simp [firstKeys]
  | cons c rest ih =>
    by_cases hk : k = c
    · subst hk; simp [firstKeys]
    · simp [firstKeys, List.mem_filter, ih, hk, bne_iff_ne]

theorem firstKeys_nodup (l : List String) : (firstKeys l).Nodup := by
  induction l with
  | nil => simp [firstKeys]
  | cons c rest ih =>
    simp only [firstKeys, List.nodup_cons]
    refine ⟨fun hc => ?_, ih.filter _⟩
    have h2 := (List.mem_filter.mp hc).2
    simp [bne_iff_ne] at h2

theorem filter_beq_of_nodup (c : String) (l : List String) (h : l.Nodup) :
    l.filter (fun k => k == c) = if c ∈ l then [c] else [] := by
  induction l with
  | nil => simp
  | cons a rest ih =>
    rcases List.nodup_cons.mp h with ⟨ha, hrest⟩
    by_cases hac : a = c
    · subst hac
      have hcr : a ∉ rest := ha
      simp [List.filter_cons, ih hrest, hcr]
    · have hca : ¬ c = a := fun e => hac e.symm
      simp [List.filter_cons, hac, hca, ih hrest]

theorem sum_filter_not_filter (f : String → Nat) (p : String → Bool) (l : List String) :
    ((l.filter p).map f).sum + ((l.filter fun x => !(p x)).map f).sum = (l.map f).sum := by
  induction l with
  | nil => simp
  | cons a rest ih => by_cases h : p a <;> simp [List.filter_cons, h] <;> omega

theorem sum_counts_firstKeys (l : List String) :
    ((firstKeys l).map fun k => l.count k).sum = l.length := by
  induction l with
  | nil => simp [firstKeys]
  | cons c rest ih =>
    have hmapeq : ((firstKeys rest).filter (fun k => k != c)).map (fun k => (c :: rest).count k)
        = ((firstKeys rest).filter (fun k => k != c)).map (fun k => rest.count k) := by
      apply List.map_congr_left
      intro a ha
      have hac : a ≠ c := bne_iff_ne.mp (List.mem_filter.mp ha).2
      simp [List.count_cons, hac]
    have hsplit := sum_filter_not_filter (fun k => rest.count k) (fun k => k != c) (firstKeys rest)
    rw [ih] at hsplit
    have hB : (((firstKeys rest).filter fun x => !(x != c)).map fun k => rest.count k).sum
        = if c ∈ rest then rest.count c else 0 := by
      have hfe : ((firstKeys rest).filter fun x => !(x != c))
          = ((firstKeys rest).filter fun x => x == c) := by
        simp [bne]
      rw [hfe, filter_beq_of_nodup c (firstKeys rest) (firstKeys_nodup rest)]
      by_cases hc : c ∈ rest <;> simp [mem_firstKeys_iff, hc]
    rw [hB] at hsplit
    simp only [firstKeys, List.map_cons, List.sum_cons, hmapeq, List.count_cons_self,
      List.length_cons]
    by_cases hc : c ∈ rest
    · rw [if_pos hc] at hsplit; omega
    · rw [if_neg hc] at hsplit
      rw [List.count_eq_zero_of_not_mem hc]
      omega

theorem insertDesc_perm (x : String × Nat) (l : List (String × Nat)) :
    List.Perm (insertDesc x l) (x :: l) := by
  induction l with
  | nil => exact List.Perm.refl _
  | cons y ys ih =>
    by_cases h : y.2 ≤ x.2
    · simp only [insertDesc, if_pos h]
      exact List.Perm.refl _
    · simp only [insertDesc, if_neg h]
      exact (ih.cons y).trans (List.Perm.swap x y ys)

theorem sortDesc_perm (l : List (String × Nat)) : List.Perm (sortDesc l) l := by
  induction l with
  | nil => exact List.Perm.refl _
  | cons x xs ih => exact (insertDesc_perm x (sortDesc xs)).trans (ih.cons x)

theorem sorted_insertDesc (x : String × Nat) (l : List (String × Nat))
    (h : l.Pairwise (fun a b => b.2 ≤ a.2)) :
    (insertDesc x l).Pairwise (fun a b => b.2 ≤ a.2) := by
  induction l with
  | nil => simp [insertDesc]
  | cons y ys ih =>
    rcases List.pairwise_cons.mp h with ⟨hy, hys⟩
    by_cases hc : y.2 ≤ x.2
    · simp only [insertDesc, if_pos hc]
      refine List.pairwise_cons.mpr ⟨?_, h⟩
      intro z hz
      rcases List.mem_cons.mp hz with rfl | hz'
      · exact hc
      · exact le_trans (hy z hz') hc
    · simp only [insertDesc, if_neg hc]
      refine List.pairwise_cons.mpr ⟨?_, ih hys⟩
      intro z hz
      rcases List.mem_cons.mp ((insertDesc_perm x ys).mem_iff.mp hz) with rfl | hz'
      · omega
      · exact hy z hz'

theorem sorted_sortDesc (l : List (String × Nat)) :
    (sortDesc l).Pairwise (fun a b => b.2 ≤ a.2) := by
  induction l with
  | nil => simp [sortDesc]
  | cons x xs ih => exact sorted_insertDesc x (sortDesc xs) ih

/-! ## Helper lemmas about the refusal tally -/

theorem tallyGo_total (th : Rat) (secs : List (String × List Char)) :
    ∀ acc : Nat × Nat × List (String × Rat), (tallyGo th secs acc).1 = acc.1 + secs.length := by
  induction secs with
  | nil => intro acc; simp [tallyGo]
  | cons s rest ih =>
    intro acc
    obtain ⟨t0, s0, m0⟩ := acc
    cases h : refusalSearch s.2 <;> simp [tallyGo, h, ih] <;> omega

theorem tallyGo_shallow (th : Rat) (secs : List (String × List Char)) :
    ∀ acc : Nat × Nat × List (String × Rat),
      (tallyGo th secs acc).2.1
        = acc.2.1 + ((secs.filterMap fun s => refusalSearch s.2).filter
            fun d => decide (d < th)).length := by
  induction secs with
  | nil => intro acc; simp [tallyGo]
  | cons s rest ih =>
    intro acc
    obtain ⟨t0, s0, m0⟩ := acc
    cases h : refusalSearch s.2 with
    | none => simp [tallyGo, h, ih, List.filterMap_cons]
    | some d =>
      by_cases hd : d < th <;>
        (simp [tallyGo, h, ih, List.filterMap_cons, List.filter_cons, hd]; try omega)

theorem updMap_mem (k : String) (v : Rat) (p : String × Rat) :
    ∀ m : List (String × Rat), p ∈ updMap m k v → p ∈ m ∨ p = (k, v) := by
  intro m
  induction m with
  | nil => intro hp; simp [updMap] at hp; right; exact hp
  | cons q rest ih =>
    intro hp
    by_cases hq : q.1 = k
    · simp only [updMap, if_pos hq] at hp
      rcases List.mem_cons.mp hp with rfl | hp'
      · right; rfl
      · left; exact List.mem_cons_of_mem q hp'
    · simp only [updMap, if_neg hq] at hp
      rcases List.mem_cons.mp hp with rfl | hp'
      · left; exact List.mem_cons_self p rest
      · rcases ih hp' with h | h
        · left; exact List.mem_cons_of_mem q h
        · right; exact h

theorem tallyGo_map (th : Rat) (k : String) (v : Rat) (secs : List (String × List Char)) :
    ∀ acc : Nat × Nat × List (String × Rat), (k, v) ∈ (tallyGo th secs acc).2.2 →
      (k, v) ∈ acc.2.2 ∨ ∃ b, (k, b) ∈ secs ∧ refusalSearch b = some v := by
  induction secs with
  | nil => intro acc h; left; simpa [tallyGo] using h
  | cons s rest ih =>
    intro acc h
    obtain ⟨t0, s0, m0⟩ := acc
    cases hr : refusalSearch s.2 with
    | none =>
      simp only [tallyGo, hr] at h
      rcases ih _ h with h' | ⟨b, hb, hrb⟩
      · left; exact h'
      · right; exact ⟨b, List.mem_cons_of_mem s hb, hrb⟩
    | some d =>
      simp only [tallyGo, hr] at h
      rcases ih _ h with h' | ⟨b, hb, hrb⟩
      · rcases updMap_mem s.1 d (k, v) m0 h' with h2 | h2
        · left; exact h2
        · right
          simp only [Prod.mk.injEq] at h2
          obtain ⟨hk, hv⟩ := h2
          subst hk; subst hv
          exact ⟨s.2, List.mem_cons_self s rest, hr⟩
      · right; exact ⟨b, List.mem_cons_of_mem s hb, hrb⟩

/-! ## Spec-side drainage sums (used to state claim C1) -/

/-- The `bad` of the specification: the summed percents of the rows whose code
falls in the poor, very poor or unstable bucket. -/
def specBad (rows : List USCSRow) : Rat :=
  ((rows.filter fun r => decide (bucketOf r.code = some "poor"
      ∨ bucketOf r.code = some "very_poor"
      ∨ bucketOf r.code = some "unstable")).map USCSRow.percent).sum

/-- The `ok` of the specification: the summed percents of the rows whose code
falls in the excellent or good bucket. -/
def specOk (rows : List USCSRow) : Rat :=
  ((rows.filter fun r => decide (bucketOf r.code = some "excellent"
      ∨ bucketOf r.code = some "good")).map USCSRow.percent).sum

theorem specBad_eq (rows : List USCSRow) :
    specBad rows = bucketTotal "poor" rows + bucketTotal "very_poor" rows
      + bucketTotal "unstable" rows := by
  induction rows with
  | nil => simp [specBad, bucketTotal]
  | cons r rs ih =>
    have hposcase : ∀ _ : (bucketOf r.code = some "poor" ∨ bucketOf r.code = some "very_poor"
        ∨ bucketOf r.code = some "unstable"),
        specBad (r :: rs) = r.percent + specBad rs := by
      intro hor
      have hpr : (decide (bucketOf r.code = some "poor"
          ∨ bucketOf r.code = some "very_poor"
          ∨ bucketOf r.code = some "unstable")) = true := by
        simp only [decide_eq_true_eq]
        exact hor
      simp only [specBad, List.filter_cons]
      rw [if_pos hpr]
      simp only [List.map_cons, List.sum_cons]
    by_cases h1 : bucketOf r.code = some "poor"
    · have h2 : ¬ bucketOf r.code = some "very_poor" := fun h => by
        have hx := h1.symm.trans h; simp at hx
      have h3 : ¬ bucketOf r.code = some "unstable" := fun h => by
        have hx := h1.symm.trans h; simp at hx
      rw [hposcase (Or.inl h1), ih]
      simp [bucketTotal, qadd_eq, h1, h2, h3]
      ring
    · by_cases h2 : bucketOf r.code = some "very_poor"
      · have h3 : ¬ bucketOf r.code = some "unstable" := fun h => by
          have hx := h2.symm.trans h; simp at hx
        rw [hposcase (Or.inr (Or.inl h2)), ih]
        simp [bucketTotal, qadd_eq, h1, h2, h3]
        ring
      · by_cases h3 : bucketOf r.code = some "unstable"
        · rw [hposcase (Or.inr (Or.inr h3)), ih]
          simp [bucketTotal, qadd_eq, h1, h2, h3]
          ring
        · have hgoal : specBad (r :: rs) = specBad rs := by
            have hpr : (decide (bucketOf r.code = some "poor"
                ∨ bucketOf r.code = some "very_poor"
                ∨ bucketOf r.code = some "unstable")) = false := by
              simp [h1, h2, h3]
            simp only [specBad, List.filter_cons]
            rw [if_neg (by simp [hpr])]
          rw [hgoal, ih]
          simp [bucketTotal, qadd_eq, h1, h2, h3]

theorem specOk_eq (rows : List USCSRow) :
    specOk rows = bucketTotal "excellent" rows + bucketTotal "good" rows := by
  induction rows with
  | nil => simp [specOk, bucketTotal]
  | cons r rs ih =>
    have hposcase : ∀ _ : (bucketOf r.code = some "excellent" ∨ bucketOf r.code = some "good"),
        specOk (r :: rs) = r.percent + specOk rs := by
      intro hor
      have hpr : (decide (bucketOf r.code = some "excellent"
          ∨ bucketOf r.code = some "good")) = true := by
        simp only [decide_eq_true_eq]
        exact hor
      simp only [specOk, List.filter_cons]
      rw [if_pos hpr]
      simp only [List.map_cons, List.sum_cons]
    by_cases h1 : bucketOf r.code = some "excellent"
    · have h2 : ¬ bucketOf r.code = some "good" := fun h => by
        have hx := h1.symm.trans h; simp at hx
      rw [hposcase (Or.inl h1), ih]
      simp [bucketTotal, qadd_eq, h1, h2]
      ring
    · by_cases h2 : bucketOf r.code = some "good"
      · rw [hposcase (Or.inr h2), ih]
        simp [bucketTotal, qadd_eq, h1, h2]
        ring
      · have hgoal : specOk (r :: rs) = specOk rs := by
          have hpr : (decide (bucketOf r.code = some "excellent"
              ∨ bucketOf r.code = some "good")) = false := by
            simp [h1, h2]
          simp only [specOk, List.filter_cons]
          rw [if_neg (by simp [hpr])]
        rw [hgoal, ih]
        simp [bucketTotal, qadd_eq, h1, h2]

/-- Percent sums pulled out of a list of rounded-percent row inputs. -/
theorem sum_div_cast (T : Rat) (pairs : List (String × Nat)) :
    (pairs.map fun p => (100 * p.2 : Rat) / T).sum
      = (100 * (((pairs.map Prod.snd).sum : Nat) : Rat)) / T := by
  induction pairs with
  | nil => simp
  | cons p ps ih =>
    simp only [List.map_cons, List.sum_cons, ih]
    push_cast
    ring

/-! ## The claims -/

/-- Claim C1: for every non-empty USCS frequency table the drainage
classifier headline label is chosen by evaluating, in order,
`bad >= 60`, `bad >= 40`, `ok >= 50 and bad < 30`, else "Mixed drainage",
where `bad` sums the percents of the poor, very poor and unstable rows and
`ok` sums the percents of the excellent and good rows; and on the table
extracted from "CH CH CH ML" the label is "Overall NOT well-draining". -/
theorem c1 :
    (∀ rows : List USCSRow, rows ≠ [] →
      drainage_overall_label rows =
        (if 60 ≤ specBad rows then "Overall NOT well-draining"
         else if 40 ≤ specBad rows then "Mostly not well-draining"
         else if 50 ≤ specOk rows ∧ specBad rows < 30 then "Overall well-draining tendency"
         else "Mixed drainage"))
    ∧ drainage_overall_label (extract_uscs_frequencies "CH CH CH ML".data true)
        = "Overall NOT well-draining" := by
  refine ⟨?_, by decide⟩
  intro rows _
  simp only [drainage_overall_label, qadd_eq, specBad_eq, specOk_eq]

theorem c1_witness :
    drainage_overall_label (extract_uscs_frequencies "CH CH CH ML".data true) =
      (if 60 ≤ specBad (extract_uscs_frequencies "CH CH CH ML".data true)
        then "Overall NOT well-draining"
       else if 40 ≤ specBad (extract_uscs_frequencies "CH CH CH ML".data true)
        then "Mostly not well-draining"
       else if 50 ≤ specOk (extract_uscs_frequencies "CH CH CH ML".data true)
          ∧ specBad (extract_uscs_frequencies "CH CH CH ML".data true) < 30
        then "Overall well-draining tendency"
       else "Mixed drainage") :=
  c1.1 (extract_uscs_frequencies "CH CH CH ML".data true) (by decide)

/-- Claim C2: when the "not encountered" phrase is absent and the explicit
shallow-wording rule does not fire, an explicit
`(groundwater|water table) ... N ft` mention makes `find_groundwater` answer
"Yes" exactly when the parsed depth is below 5.0; in particular
"water table at approx 4 ft" yields "Yes" and
"groundwater encountered at 7 ft" yields "No". -/
theorem c2 :
    (∀ (t : List Char) (d : Rat), gwNotEnc (lowerL t) = false → gwShallow (lowerL t) = false →
        gwDepth (lowerL t) = some d →
        find_groundwater t = if d < 5 then "Yes" else "No")
    ∧ find_groundwater "water table at approx 4 ft".data = "Yes"
    ∧ find_groundwater "groundwater encountered at 7 ft".data = "No" := by
  refine ⟨?_, by decide, by decide⟩
  intro t d h1 h2 h3
  simp [find_groundwater, h1, h2, h3]

theorem c2_witness :
    find_groundwater "groundwater encountered at 7 ft".data
      = if (7 : Rat) < 5 then "Yes" else "No" :=
  c2.1 "groundwater encountered at 7 ft".data 7 (by decide) (by decide) (by decide)

/-- Claim C3: the section-based refusal counter counts every section toward
`total`, records a depth only for sections whose body has a refusal-context
depth, counts as shallow exactly the found depths strictly below the
threshold, and (for a non-empty section list) reports
`percent = round1(100 * shallow / total)`; on the two-boring example text it
returns total 2, shallow 1, percent 50.0 and the expected depth map. -/
theorem c3 :
    (∀ (secs : List (String × List Char)) (th : Rat),
      (count_shallow_refusals secs th).total = secs.length
      ∧ (count_shallow_refusals secs th).shallow
          = ((secs.filterMap fun s => refusalSearch s.2).filter fun d => decide (d < th)).length
      ∧ (secs ≠ [] → (count_shallow_refusals secs th).pct
          = round1 ((100 * (count_shallow_refusals secs th).shallow : Rat) / (secs.length : Rat)))
      ∧ (∀ (k : String) (v : Rat), (k, v) ∈ (count_shallow_refusals secs th).ids_with_depth →
          ∃ b, (k, b) ∈ secs ∧ refusalSearch b = some v))
    ∧ count_boring_refusals_under_8ft
        "LOG OF BORING GEO-001 refusal at 5 ft LOG OF BORING GEO-002 refusal at 10 ft".data 8
        = { total := 2, shallow := 1, pct := 50,
            ids_with_depth := [("GEO-001", 5), ("GEO-002", 10)] } := by
  refine ⟨?_, by decide⟩
  intro secs th
  have htot : (tallyGo th secs (0, 0, [])).1 = secs.length := by
    simpa using tallyGo_total th secs (0, 0, [])
  have hsh : (tallyGo th secs (0, 0, [])).2.1
      = ((secs.filterMap fun s => refusalSearch s.2).filter fun d => decide (d < th)).length := by
    simpa using tallyGo_shallow th secs (0, 0, [])
  refine ⟨by simpa [count_shallow_refusals] using htot,
    by simpa [count_shallow_refusals] using hsh, ?_, ?_⟩
  · intro hne
    have hlen : secs.length ≠ 0 := by
      intro h0; exact hne (List.length_eq_zero.mp h0)
    simp only [count_shallow_refusals, htot]
    rw [if_neg hlen, Rat.divInt_eq_div]
    push_cast
    ring_nf
  · intro k v hkv
    simp only [count_shallow_refusals] at hkv
    rcases tallyGo_map th k v secs (0, 0, []) hkv with h | h
    · simp at h
    · exact h

theorem c3_witness :
    (count_shallow_refusals [("GEO-001", " refusal at 5 ft".data)] 8).pct
      = round1 ((100 * (count_shallow_refusals [("GEO-001", " refusal at 5 ft".data)] 8).shallow
            : Rat)
          / (([("GEO-001", " refusal at 5 ft".data)] : List (String × List Char)).length : Rat)) :=
  (c3.1 [("GEO-001", " refusal at 5 ft".data)] 8).2.2.1 (by decide)

/-- Claim C4: for every input text the frequency table is sorted by
descending count, every row has `count >= 1` and
`percent = round2(100 * count / total_matches)`, and the table is empty
(not an error) when no codes are found. -/
theorem c4 (t : List Char) (collapse : Bool) :
    (extract_uscs_frequencies t collapse).Pairwise (fun a b => b.count ≤ a.count)
    ∧ (∀ r ∈ extract_uscs_frequencies t collapse,
        1 ≤ r.count ∧ r.percent = round2 ((100 * r.count : Rat) / (uscsTotal t collapse : Rat)))
    ∧ (uscsFindAll (upperL t) = [] → extract_uscs_frequencies t collapse = []) := by
  refine ⟨?_, ?_, ?_⟩
  · by_cases h : (uscsFiltered t collapse).length = 0
    · simp [extract_uscs_frequencies, h]
    · simp only [extract_uscs_frequencies, if_neg h]
      exact (sorted_sortDesc _).map _ (fun a b hab => hab)
  · intro r hr
    by_cases h : (uscsFiltered t collapse).length = 0
    · simp [extract_uscs_frequencies, h] at hr
    · simp only [extract_uscs_frequencies, if_neg h] at hr
      rcases List.mem_map.mp hr with ⟨p, hp, rfl⟩
      constructor
      · have hp0 : p ∈ (firstKeys (uscsFiltered t collapse)).map
            (fun k => (k, (uscsFiltered t collapse).count k)) :=
          (sortDesc_perm _).mem_iff.mp hp
        rcases List.mem_map.mp hp0 with ⟨k, hk, rfl⟩
        have hmem : k ∈ uscsFiltered t collapse := (mem_firstKeys_iff k _).mp hk
        exact List.count_pos_iff.mpr hmem
      · show round2 (Rat.divInt (100 * p.2) (uscsFiltered t collapse).length) = _
        rw [Rat.divInt_eq_div]
        simp only [uscsTotal]
        push_cast
        rfl
  · intro h
    have hf : uscsFiltered t collapse = [] := by
      simp [uscsFiltered, h, expandCodes]
    simp [extract_uscs_frequencies, hf]

theorem c4_witness :
    1 ≤ (USCSRow.mk "GW" "Well-graded gravel" 2 (mkRat 6667 100)).count
    ∧ (USCSRow.mk "GW" "Well-graded gravel" 2 (mkRat 6667 100)).percent
        = round2 ((100 * (USCSRow.mk "GW" "Well-graded gravel" 2 (mkRat 6667 100)).count : Rat)
            / (uscsTotal "GW GW SP".data true : Rat)) :=
  (c4 "GW GW SP".data true).2.1 (USCSRow.mk "GW" "Well-graded gravel" 2 (mkRat 6667 100))
    (by decide)

/-- Claim C5: with `collapse_compounds = true` every matched "SC-SM" token
contributes one SC and one SM (and never survives as a compound); with the
flag false the compound is dropped by the name filter, so a text whose only
code occurrence is "SC-SM" yields an empty table. -/
theorem c5 :
    (∀ codes : List String, (∀ c ∈ codes, c.data.contains '-' = false ∨ c = "SC-SM") →
      (expandCodes codes true).count "SC" = codes.count "SC" + codes.count "SC-SM"
      ∧ (expandCodes codes true).count "SM" = codes.count "SM" + codes.count "SC-SM")
    ∧ extract_uscs_frequencies "SC-SM".data true
        = [{ code := "SC", name := "Clayey sand", count := 1, percent := 50 },
           { code := "SM", name := "Silty sand", count := 1, percent := 50 }]
    ∧ extract_uscs_frequencies "SC-SM".data false = [] := by
  refine ⟨?_, by decide, by decide⟩
  intro codes h
  induction codes with
  | nil => simp [expandCodes]
  | cons c rest ih =>
    have hrest := ih (fun x hx => h x (List.mem_cons_of_mem c hx))
    rcases h c (List.mem_cons_self c rest) with hc | hc
    · have hne : ("SC-SM" : String) ≠ c := by
        intro hcc
        rw [← hcc] at hc
        simp [List.contains] at hc
      have hexp : expandCodes (c :: rest) true = c :: expandCodes rest true := by
        simp only [expandCodes, Bool.true_and, hc]
        simp
      rw [hexp]
      rcases eq_or_ne c "SC" with rfl | hcSC
      · refine ⟨?_, ?_⟩ <;> (simp [List.count_cons, hrest.1, hrest.2]; try omega)
      · rcases eq_or_ne c "SM" with rfl | hcSM
        · refine ⟨?_, ?_⟩ <;> (simp [List.count_cons, hrest.1, hrest.2]; try omega)
        · have h1 : ("SC" : String) ≠ c := fun e => hcSC e.symm
          have h2 : ("SM" : String) ≠ c := fun e => hcSM e.symm
          refine ⟨?_, ?_⟩ <;> simp [List.count_cons, hrest.1, hrest.2, h1, h2, hne]
    · subst hc
      have hexp : expandCodes ("SC-SM" :: rest) true
          = "SC" :: "SM" :: expandCodes rest true := by
        have hhead : (if true && ("SC-SM" : String).data.contains '-'
            then (splitCode "SC-SM").filter isKnownCode else ["SC-SM"]) = ["SC", "SM"] := by
          decide
        simp only [expandCodes]
        rw [hhead]
        rfl
      rw [hexp]
      refine ⟨?_, ?_⟩ <;> simp [List.count_cons, hrest.1, hrest.2] <;> omega

theorem c5_witness :
    (expandCodes ["SC-SM"] true).count "SC"
        = (["SC-SM"] : List String).count "SC" + (["SC-SM"] : List String).count "SC-SM"
    ∧ (expandCodes ["SC-SM"] true).count "SM"
        = (["SC-SM"] : List String).count "SM" + (["SC-SM"] : List String).count "SC-SM" :=
  c5.1 ["SC-SM"] (by decide)

/-- Claim C6 (amended): the claimed invariant fails for the rounded Percent
column (see the counterexample); what holds is that the unrounded
percentages `100 * count / total_matches` of a non-empty table sum to
exactly 100. -/
theorem c6 (t : List Char) (collapse : Bool) (h : extract_uscs_frequencies t collapse ≠ []) :
    ((extract_uscs_frequencies t collapse).map
      (fun r => (100 * r.count : Rat) / (uscsTotal t collapse : Rat))).sum = 100 := by
  by_cases h0 : (uscsFiltered t collapse).length = 0
  · exact absurd (by simp [extract_uscs_frequencies, h0]) h
  · have hrows : extract_uscs_frequencies t collapse
        = (mostCommon (uscsFiltered t collapse)).map (fun p =>
            { code := p.1, name := nameOf p.1, count := p.2,
              percent := round2 (Rat.divInt (100 * p.2) (uscsFiltered t collapse).length) }) := by
      simp [extract_uscs_frequencies, h0]
    rw [hrows, List.map_map]
    have hfeq : ((fun r : USCSRow => (100 * r.count : Rat) / (uscsTotal t collapse : Rat)) ∘
        (fun p : String × Nat =>
          USCSRow.mk p.1 (nameOf p.1) p.2
            (round2 (Rat.divInt (100 * p.2) (uscsFiltered t collapse).length))))
        = fun p : String × Nat => (100 * p.2 : Rat) / (uscsTotal t collapse : Rat) := rfl
    rw [hfeq, sum_div_cast]
    have hS : ((mostCommon (uscsFiltered t collapse)).map Prod.snd).sum
        = (uscsFiltered t collapse).length := by
      have hperm := (sortDesc_perm ((firstKeys (uscsFiltered t collapse)).map
        (fun k => (k, (uscsFiltered t collapse).count k)))).map Prod.snd
      have hsum := hperm.sum_eq
      simp only [mostCommon]
      rw [hsum, List.map_map]
      exact sum_counts_firstKeys (uscsFiltered t collapse)
    rw [hS]
    have hzq : ((uscsFiltered t collapse).length : Rat) ≠ 0 := Nat.cast_ne_zero.mpr h0
    simp only [uscsTotal]
    rw [mul_div_assoc, div_self hzq, mul_one]

theorem c6_witness :
    ((extract_uscs_frequencies "GW GW SP".data true).map
      (fun r => (100 * r.count : Rat) / (uscsTotal "GW GW SP".data true : Rat))).sum = 100 :=
  c6 "GW GW SP".data true (by decide)

/-- Claim C6 counterexample: for "GW SP SM" the three rounded percents are
all 33.33 and their sum is 99.99, not 100. -/
theorem c6_counterexample :
    ¬ ((extract_uscs_frequencies "GW SP SM".data true).map USCSRow.percent).sum = 100 := by
  have h : (extract_uscs_frequencies "GW SP SM".data true).map USCSRow.percent
      = [mkRat 3333 100, mkRat 3333 100, mkRat 3333 100] := by decide
  rw [h]
  simp only [List.sum_cons, List.sum_nil, Rat.mkRat_eq_div]
  norm_num

/-- Claim C7: the "groundwater [was] not encountered" phrase makes
`find_groundwater` answer "No" regardless of anything else in the text. -/
theorem c7 (t : List Char) (h : gwNotEnc (lowerL t) = true) : find_groundwater t = "No" := by
  simp [find_groundwater, h]

theorem c7_witness :
    find_groundwater "groundwater was not encountered; water table at approx 4 ft".data = "No" :=
  c7 _ (by decide)

/-- Claim C8: both fallback refusal paths return percent 0.0 whenever the
narrative total is 0, never dividing by zero, even on texts where the
document scan found identifier/depth co-occurrences so the returned depth
map is non-empty. -/
theorem c8 :
    (∀ (t : List Char) (th : Rat),
      (boring_fallback_counts t th).total = 0 → (boring_fallback_counts t th).pct = 0)
    ∧ (∀ (t : List Char) (th : Rat),
      (cpt_fallback_counts t th).total = 0 → (cpt_fallback_counts t th).pct = 0)
    ∧ (boring_fallback_counts "GEO-001 refusal at 5 ft".data 8).ids_with_depth ≠ []
    ∧ (cpt_fallback_counts
        "Table 2 CPT Sounding Shallow Refusal Depths GEO-001 5 ft".data 8).ids_with_depth
        ≠ [] := by
  refine ⟨?_, ?_, by decide, by decide⟩
  · intro t th h
    simp only [boring_fallback_counts] at h ⊢
    simp [h]
  · intro t th h
    simp only [cpt_fallback_counts] at h ⊢
    simp [h]

theorem c8_witness :
    (boring_fallback_counts "GEO-001 refusal at 5 ft".data 8).pct = 0
    ∧ (cpt_fallback_counts
        "Table 2 CPT Sounding Shallow Refusal Depths GEO-001 5 ft".data 8).pct = 0 :=
  ⟨c8.1 "GEO-001 refusal at 5 ft".data 8 (by decide),
   c8.2.1 "Table 2 CPT Sounding Shallow Refusal Depths GEO-001 5 ft".data 8 (by decide)⟩

/-- Claim C9: when the boring segmenter finds zero sections the counter
falls back to the narrative heuristics, and on the example text with
"Soil borings were completed at 6 locations" and two sub-threshold
co-occurrences it returns total 6, shallow 2, percent 33.3. -/
theorem c9 :
    (∀ (t : List Char) (th : Rat), iter_boring_sections t = [] →
      count_boring_refusals_under_8ft t th = boring_fallback_counts t th)
    ∧ count_boring_refusals_under_8ft
        "Soil borings were completed at 6 locations. GEO-001 refusal at 5 ft. GEO-002 refusal at 6 ft.".data
        8
        = { total := 6, shallow := 2, pct := mkRat 333 10,
            ids_with_depth := [("GEO-001", 5), ("GEO-002", 6)] } := by
  refine ⟨?_, by decide⟩
  intro t th h
  simp [count_boring_refusals_under_8ft, h, count_shallow_refusals, tallyGo]

theorem c9_witness :
    count_boring_refusals_under_8ft
      "Soil borings were completed at 6 locations. GEO-001 refusal at 5 ft. GEO-002 refusal at 6 ft.".data
      8
      = boring_fallback_counts
        "Soil borings were completed at 6 locations. GEO-001 refusal at 5 ft. GEO-002 refusal at 6 ft.".data
        8 :=
  c9.1 _ 8 (by decide)

/-- Claim C10: the boring fallback does not bound the shallow count by the
narrative total: on a text whose narrative states 1 location but which
contains two sub-threshold co-occurrences, the counter returns
shallow 2 > total 1 and percent 200 > 100. -/
theorem c10 :
    (count_boring_refusals_under_8ft
        "Soil borings were completed at 1 locations. GEO-001 refusal at 5 ft. GEO-002 refusal at 6 ft.".data
        8).total = 1
    ∧ (count_boring_refusals_under_8ft
        "Soil borings were completed at 1 locations. GEO-001 refusal at 5 ft. GEO-002 refusal at 6 ft.".data
        8).shallow = 2
    ∧ (count_boring_refusals_under_8ft
        "Soil borings were completed at 1 locations. GEO-001 refusal at 5 ft. GEO-002 refusal at 6 ft.".data
        8).total
      < (count_boring_refusals_under_8ft
        "Soil borings were completed at 1 locations. GEO-001 refusal at 5 ft. GEO-002 refusal at 6 ft.".data
        8).shallow
    ∧ (100 : Rat)
      < (count_boring_refusals_under_8ft
        "Soil borings were completed at 1 locations. GEO-001 refusal at 5 ft. GEO-002 refusal at 6 ft.".data
        8).pct := by
  decide

end Geo
